/-
Verification of the allele-code assignment program
(`scripts/assignAlleleCodes_py3.6.py`) against its natural-language
specification.

The Python source is shallowly embedded: dictionaries become association
lists (`List (key × value)`) whose key uniqueness and insertion order follow
Python `dict` semantics, Python floats become exact rationals (`ℚ`), and
code that can raise becomes `Option`-valued.  Each embedded definition keeps
the name of the Python function or method it translates.
-/
import Mathlib

/-! ## Distance function (`GetDistance`, source lines 1248-1272)

Profiles are fixed-length vectors of non-negative integers (`List ℕ`, the
value 0 meaning "missing").  The Python body indexes both profiles at every
`i in range(len(p1))`; the total embedding below reads out-of-range
positions as 0 via `List.getD`, and `GetDistanceChecked` further down keeps
every index access explicit (`List.get?`) so that in-bounds behaviour can be
stated and proved (claim C10). -/

/-- `nCommon = sum([p1[i]>0 and p2[i]>0 for i in range(len(p1))])` -/
def nCommon (p1 p2 : List ℕ) : ℕ :=
  (List.range p1.length).countP fun i =>
    decide (0 < p1.getD i 0) && decide (0 < p2.getD i 0)

/-- `nDiff = sum([p1[i] != p2[i] for i in range(len(p1)) if p1[i] and p2[i]])`
(Python truthiness of an integer is "nonzero"). -/
def nDiff (p1 p2 : List ℕ) : ℕ :=
  (List.range p1.length).countP fun i =>
    (decide (p1.getD i 0 ≠ 0) && decide (p2.getD i 0 ≠ 0))
      && decide (p1.getD i 0 ≠ p2.getD i 0)

/-- `GetDistance`: percent mismatch over jointly called loci; `100.0` when no
locus is called in both profiles. -/
def GetDistance (p1 p2 : List ℕ) : ℚ :=
  if nCommon p1 p2 ≠ 0 then
    100 * (nDiff p1 p2 : ℚ) / (nCommon p1 p2 : ℚ)
  else
    100

/-- Helper: `Option`-valued map over a list, failing as soon as one element
fails (the shape of a Python list comprehension whose body may raise). -/
def mapOpt {α β : Type} (f : α → Option β) : List α → Option (List β)
  | [] => some []
  | x :: xs => do
    let y ← f x
    let ys ← mapOpt f xs
    pure (y :: ys)

/-- `GetDistance` with every index access checked: `p1[i]` and `p2[i]` are
`List.get?` lookups that fail when out of range, exactly where the Python
code would raise `IndexError`. -/
def GetDistanceChecked (p1 p2 : List ℕ) : Option ℚ := do
  let commonBits ← mapOpt (fun i => do
      let a ← p1.get? i
      let b ← p2.get? i
      pure (decide (0 < a) && decide (0 < b))) (List.range p1.length)
  let diffBits ← mapOpt (fun i => do
      let a ← p1.get? i
      let b ← p2.get? i
      pure ((decide (a ≠ 0) && decide (b ≠ 0)) && decide (a ≠ b)))
    (List.range p1.length)
  let nC := commonBits.count true
  let nD := diffBits.count true
  pure (if nC ≠ 0 then 100 * (nD : ℚ) / (nC : ℚ) else 100)

/-! Spec-side counting for claim C1, written from the specification's words:
`common = |{ i : p1[i] > 0 ∧ p2[i] > 0 }|` and
`diff = |{ i : p1[i] > 0 ∧ p2[i] > 0 ∧ p1[i] ≠ p2[i] }|`, the index `i`
ranging over the positions of the (equal-length) profiles. -/

/-- Cardinality of the set of positions called in both profiles. -/
def specCommon (p1 p2 : List ℕ) : ℕ :=
  ((Finset.range p1.length).filter fun i =>
    0 < p1.getD i 0 ∧ 0 < p2.getD i 0).card

/-- Cardinality of the set of positions called in both profiles where the
calls disagree. -/
def specDiff (p1 p2 : List ℕ) : ℕ :=
  ((Finset.range p1.length).filter fun i =>
    0 < p1.getD i 0 ∧ 0 < p2.getD i 0 ∧ p1.getD i 0 ≠ p2.getD i 0).card

/-! ## `IsInCluster` (source lines 1331-1363)

A cluster node, as the predicate sees it: its founder key (`Preferred`),
its cached diameter, and its member keys (`EntryKeys`).  Pairwise distances
are abstracted as a function `dist : String → String → ℚ` (in the source
they are memoized results of `GetDistance` on the corresponding profiles;
memoization does not change values). -/

structure ClusterNode where
  Preferred : String
  Diameter : ℚ
  EntryKeys : List String

/-- `IsInCluster(unNamedEntryKey, node, threshold, corePercent)`:
fast accept via the founder, fast reject via diameter plus missing-data
slack, otherwise full membership scan. -/
def IsInCluster (dist : String → String → ℚ) (unNamedEntryKey : String)
    (node : ClusterNode) (threshold corePercent : ℚ) : Bool :=
  let d := dist unNamedEntryKey node.Preferred
  if d ≤ threshold then
    true
  else if threshold < d - node.Diameter - 2 * (100 - 100 * corePercent) then
    false
  else
    node.EntryKeys.any fun sample2 =>
      decide (dist unNamedEntryKey sample2 ≤ threshold)

/-! ## Merge anchor selection (`Node.MergeNodes`, source lines 835-880, and
`CalcName`, lines 1436-1470)

The tree node structure: interior nodes carry child nodes, terminal
(`NamedNode`) nodes carry the keys named there. -/

inductive PNode where
  | node (ID : ℕ) (children : List PNode)
  | named (ID : ℕ) (namedChildren : List String)

/-- Node id (`Node.ID()`). -/
def PNode.getID : PNode → ℕ
  | .node i _ => i
  | .named i _ => i

mutual
/-- `sum(n.TotalChildCount() for n in node.DFSNamed())`: the number of keys
named at or below a node (for a `NamedNode`, `TotalChildCount` is its count
of named children; interior nodes contribute through their descendants). -/
def dfsNamedSize : PNode → ℕ
  | .node _ cs => dfsNamedSizeList cs
  | .named _ ks => ks.length

def dfsNamedSizeList : List PNode → ℕ
  | [] => 0
  | c :: cs => dfsNamedSize c + dfsNamedSizeList cs
end

/-- `Node.GetChild(ID)`: dictionary lookup among the children. -/
def GetChild (children : List PNode) (ID : ℕ) : Option PNode :=
  children.find? fun c => c.getID == ID

/-- Python `max(xs, key=f)`: the first element attaining the maximal key,
`none` on an empty list (`max` raises there). -/
def firstMaxBy {α : Type} (f : α → ℕ) : List α → Option α
  | [] => none
  | x :: xs => some (xs.foldl (fun best y => if f best < f y then y else best) x)

/-- The anchor-selection slice of `Node.MergeNodes(nodes)`: look the ids up
among `self`'s children (in the order the ids are supplied — in the source
that order is the iteration order of the Python set `closestClusters`,
which the language does not specify), weigh each node by
`sum(n.TotalChildCount() for n in node.DFSNamed())`, and keep the first
maximal one (`max` on the `minObjs` dict).  The node returned is `maxObj`:
the node that survives the merge, keeps its id, and whose id `CalcName`
appends to the new key's path. -/
def MergeNodes (children : List PNode) (nodes : List ℕ) : Option PNode := do
  let allNodes ← mapOpt (GetChild children) nodes
  firstMaxBy dfsNamedSize allNodes

/-- Anchor selection as the specification words it (claim C3): among the
matching children, the one with the largest member count, ties broken by
smallest node id.  Stated from the spec, for comparison with `MergeNodes`. -/
def specAnchorId (children : List PNode) (nodes : List ℕ) : Option ℕ := do
  let allNodes ← mapOpt (GetChild children) nodes
  let maxSize ← (allNodes.map dfsNamedSize).max?
  ((allNodes.filter fun n => dfsNamedSize n == maxSize).map PNode.getID).min?

/-! ## Quality filter and per-profile engine step
(`CheckCore`, lines 1597-1604; `Calculator.DoCalc` loop, lines 1748-1783) -/

/-- Round half to even (the rounding Python's `round` uses). -/
def roundHalfEven (q : ℚ) : ℤ :=
  let f := ⌊q⌋
  let r := q - f
  if r < 1 / 2 then f
  else if 1 / 2 < r then f + 1
  else if f % 2 = 0 then f else f + 1

/-- Python `round(x, 2)`, modelled exactly on rationals (the source applies
it to a float; no claim below is settled at a value where the binary
representation of the float would round differently from the rational). -/
def pyRound2 (x : ℚ) : ℚ :=
  (roundHalfEven (x * 100) : ℚ) / 100

/-- `CheckCore(calls)`: `None` (reject) when the fraction of nonzero calls,
rounded to two decimal places, is below `minPres`; the profile otherwise. -/
def CheckCore (minPres : ℚ) (calls : List ℕ) : Option (List ℕ) :=
  if pyRound2 (((calls.length : ℚ) - (calls.count 0 : ℚ)) / (calls.length : ℚ))
      < minPres then
    none
  else
    some calls

/-- The state the per-profile loop of `DoCalc` touches: the run's new-key
tracker, the `below_qc` record (`defaultdict(list)`), the tree's `names`
map, and the hot tier of the allele-call store. -/
structure CalculatorState where
  newKeys : List String
  belowQC : List (String × List String)
  names : List (String × List ℕ)
  alleleCalls : List (String × List ℕ)

/-- `self._belowQC[key].append(tag)` on a `defaultdict(list)`. -/
def belowQCAppend (m : List (String × List String)) (key tag : String) :
    List (String × List String) :=
  match m.lookup key with
  | some _ => m.map fun e => if e.1 = key then (e.1, e.2 ++ [tag]) else e
  | none => m ++ [(key, [tag])]

/-- One iteration of the `DoCalc` loop for a key that has no name yet
(lines 1752-1783): record the key as new, run `CheckCore`; on QC failure
record `'CORE'` in `below_qc` and skip placement (`continue`); on success
add the calls to the store and place the key (`CalcName`, abstracted here
as the `place` continuation, which is only reached on the accept path). -/
def processNewProfile (minPres : ℚ)
    (place : CalculatorState → String → List ℕ → CalculatorState)
    (s : CalculatorState) (key : String) (calls : List ℕ) : CalculatorState :=
  let s1 : CalculatorState := { s with newKeys := s.newKeys ++ [key] }
  match CheckCore minPres calls with
  | none => { s1 with belowQC := belowQCAppend s1.belowQC key "CORE" }
  | some eCalls =>
      place { s1 with alleleCalls := s1.alleleCalls ++ [(key, eCalls)] } key eCalls

/-! ## Profile Store (`AlleleCalls`, source lines 1099-1245)

The hot tier `_alleleCalls` and the cold index `_index` are Python dicts,
embedded as association lists in insertion order with unique keys
(`AlleleCalls.Add` asserts uniqueness).  `_Convert` stamps new index entries
as Python *tuples* `(shard, slot)`, while `json.load` can only produce
*lists* `[shard, slot]`; the two render differently, so the embedding keeps
them apart. -/

inductive IdxVal where
  /-- a tuple `(shard, slot)`, as written by `_Convert` -/
  | tup (shard slot : ℕ)
  /-- a JSON array `[shard, slot]`, as produced by `json.load` -/
  | arr (shard slot : ℕ)
deriving DecidableEq

structure AlleleCallsState where
  alleleCalls : List (String × List ℕ)
  index : List (String × IdxVal)
  matrices : List (List (String × List ℕ))
deriving DecidableEq

/-- `BLOCKSIZE = 1000` in `_Convert`. -/
def BLOCKSIZE : ℕ := 1000

/-- One pass of the `while` body of `_Convert`: move the first `BLOCKSIZE`
keys of the hot tier into a new matrix, record each key's `(shard, slot)`
tuple in the index, and append the matrix. -/
def convertStep (st : AlleleCallsState) : AlleleCallsState :=
  let block := st.alleleCalls.take BLOCKSIZE
  { alleleCalls := st.alleleCalls.drop BLOCKSIZE
    index := st.index ++ block.enum.map fun e =>
      (e.2.1, IdxVal.tup st.matrices.length e.1)
    matrices := st.matrices ++ [block] }

/-- The `while len(self._alleleCalls) > BLOCKSIZE` loop of `_Convert`,
with explicit fuel (each iteration removes `BLOCKSIZE > 0` keys, so the
loop runs fewer than `len(self._alleleCalls)` times; `convert` below
supplies that much fuel, making the fuel irrelevant to the semantics). -/
def convertLoop : ℕ → AlleleCallsState → AlleleCallsState
  | 0, st => st
  | fuel + 1, st =>
      if BLOCKSIZE < st.alleleCalls.length then convertLoop fuel (convertStep st)
      else st

/-- `_Convert`: repeat `convertStep` while more than `BLOCKSIZE` profiles
remain in the hot tier. -/
def convert (st : AlleleCallsState) : AlleleCallsState :=
  convertLoop st.alleleCalls.length st

/-! Rendering: the source serializes with `str(dict).replace("'", '"')` and
deserializes with `json.load`.  We render to `List Char` exactly as Python's
`str` does on these values (keys are assumed free of quote characters, as
isolate identifiers are), and parse with a parser accepting exactly the JSON
subset these files use. -/

/-- `{` (written via its code point to keep it out of string literals). -/
def openBrace : Char := Char.ofNat 123

/-- `}` -/
def closeBrace : Char := Char.ofNat 125

/-- Decimal digits of a natural number, most significant first. -/
def renderNat (n : ℕ) : List Char := Nat.toDigits 10 n

/-- `str` of an index value: a tuple renders as `(m, i)`, a list as
`[m, i]`. -/
def renderIdxVal : IdxVal → List Char
  | .tup m i => '(' :: (renderNat m ++ ',' :: ' ' :: renderNat i ++ [')'])
  | .arr m i => '[' :: (renderNat m ++ ',' :: ' ' :: renderNat i ++ [']'])

/-- Interpose a separator between rendered items (Python joins dict and list
items with `", "`). -/
def joinSep (sep : List Char) : List (List Char) → List Char
  | [] => []
  | [x] => x
  | x :: xs => x ++ sep ++ joinSep sep xs

/-- `str` of an allele profile (a list of ints): `[a1, a2, ...]`. -/
def renderProfile (xs : List ℕ) : List Char :=
  '[' :: (joinSep [',', ' '] (xs.map renderNat) ++ [']'])

/-- One dict entry after the quote replacement: `"key": value`. -/
def renderEntry {α : Type} (f : α → List Char) (e : String × α) : List Char :=
  '"' :: (e.1.toList ++ '"' :: ':' :: ' ' :: f e.2)

/-- A whole dict after the quote replacement: `{"k1": v1, "k2": v2}`. -/
def renderDict {α : Type} (f : α → List Char) (entries : List (String × α)) :
    List Char :=
  openBrace :: (joinSep [',', ' '] (entries.map (renderEntry f)) ++ [closeBrace])

/-- The files `AlleleCalls.Save` writes into the `current` directory:
`calls.gzip` (the remaining hot tier), `index.gzip`, and the matrix shards
appended by `_Convert` (`matrix.<n>.gzip`, in order). -/
structure SavedFiles where
  callsDoc : List Char
  indexDoc : List Char
  matrixDocs : List (List Char)

/-- `AlleleCalls.Save(path)`: run `_Convert`, then write the hot tier and the
index as repr-coerced JSON text.  Returns the mutated store and the files
written. -/
def AlleleCallsSave (st : AlleleCallsState) : AlleleCallsState × SavedFiles :=
  let st2 := convert st
  (st2,
    { callsDoc := renderDict renderProfile st2.alleleCalls
      indexDoc := renderDict renderIdxVal st2.index
      matrixDocs := st2.matrices.map (renderDict renderProfile) })

/-- Consume one expected character. -/
def expectChar (c : Char) : List Char → Option (List Char)
  | x :: rest => if x = c then some rest else none
  | [] => none

/-- Parse a nonempty run of decimal digits. -/
def parseNat (cs : List Char) : Option (ℕ × List Char) :=
  let ds := cs.takeWhile Char.isDigit
  if ds.isEmpty then none
  else some (ds.foldl (fun a c => 10 * a + (c.toNat - 48)) 0, cs.drop ds.length)

/-- Parse a JSON string (no escapes occur in these files). -/
def parseKeyString : List Char → Option (String × List Char)
  | c :: rest =>
      if c = '"' then
        let ks := rest.takeWhile fun d => d ≠ '"'
        match rest.drop ks.length with
        | d :: rest2 => if d = '"' then some (String.mk ks, rest2) else none
        | [] => none
      else none
  | [] => none

/-- Parse a two-element JSON array `[m, i]` (an index entry). -/
def parsePair (cs : List Char) : Option ((ℕ × ℕ) × List Char) := do
  let cs ← expectChar '[' cs
  let (m, cs) ← parseNat cs
  let cs ← expectChar ',' cs
  let cs ← expectChar ' ' cs
  let (i, cs) ← parseNat cs
  let cs ← expectChar ']' cs
  pure ((m, i), cs)

/-- Parse the comma-separated items of a nonempty JSON array of naturals,
up to and including the closing bracket.  Fuel bounds the recursion; each
step consumes at least one character, so `cs.length + 1` fuel suffices. -/
def parseNatItems : ℕ → List Char → Option (List ℕ × List Char)
  | 0, _ => none
  | fuel + 1, cs => do
      let (n, cs) ← parseNat cs
      match cs with
      | c :: rest =>
          if c = ',' then do
            let rest ← expectChar ' ' rest
            let (ns, rest2) ← parseNatItems fuel rest
            pure (n :: ns, rest2)
          else if c = ']' then pure ([n], rest)
          else none
      | [] => none

/-- Parse a JSON array of naturals (an allele profile). -/
def parseProfile (cs : List Char) : Option (List ℕ × List Char) := do
  let cs ← expectChar '[' cs
  match cs with
  | c :: rest => if c = ']' then pure ([], rest) else parseNatItems (cs.length + 1) cs
  | [] => none

/-- Parse the comma-separated entries of a nonempty JSON object, up to the
closing brace, requiring end of input after it (as `json.load` does). -/
def parseEntries {α : Type} (pv : List Char → Option (α × List Char)) :
    ℕ → List Char → Option (List (String × α))
  | 0, _ => none
  | fuel + 1, cs => do
      let (k, cs) ← parseKeyString cs
      let cs ← expectChar ':' cs
      let cs ← expectChar ' ' cs
      let (v, cs) ← pv cs
      match cs with
      | c :: rest =>
          if c = ',' then do
            let rest ← expectChar ' ' rest
            let tail ← parseEntries pv fuel rest
            pure ((k, v) :: tail)
          else if c = closeBrace then
            if rest.isEmpty then pure [(k, v)] else none
          else none
      | [] => none

/-- `json.load` on one of these files: a JSON object whose values are parsed
by `pv`. -/
def parseDict {α : Type} (pv : List Char → Option (α × List Char))
    (cs : List Char) : Option (List (String × α)) :=
  match cs with
  | c :: rest =>
      if c = openBrace then
        match rest with
        | d :: rest2 =>
            if d = closeBrace then
              if rest2.isEmpty then some [] else none
            else parseEntries pv (rest.length + 1) rest
        | [] => none
      else none
  | [] => none

/-- `AlleleCalls.Load(path)`: `json.load` the calls file into the hot tier
and the index file into the index (shards load lazily, so `_matrices` is
reset to `[]`).  `none` models the exception `json.load` raises on
unparseable input. -/
def AlleleCallsLoad (files : SavedFiles) : Option AlleleCallsState :=
  match parseDict parseProfile files.callsDoc,
        parseDict parsePair files.indexDoc with
  | some calls, some idx =>
      some { alleleCalls := calls
             index := idx.map fun e => (e.1, IdxVal.arr e.2.1 e.2.2)
             matrices := [] }
  | _, _ => none

/-- A hot tier holding 1001 profiles (key `k0` followed by `m0` … `m999`),
enough to make `_Convert` promote a shard on the next save. -/
def bigStore : AlleleCallsState :=
  { alleleCalls :=
      ("k0", [0]) :: ((List.range 1000).map fun i => ("m" ++ toString i, [i]))
    index := []
    matrices := [] }

/-! ## Integrity check (`Calculator.DoCalc`, source lines 1673-1691)

After loading, the code compares the tree's `names` keys against
`self._alleleCalls._alleleCalls.keys()` — the hot-tier dict only — and
raises `AssertionError` when the comparison fails. -/

/-- The boolean the source computes before deciding whether to abort:
`all([k in names for k in hot]) and all([k in hot for k in names])`. -/
def integrityCheckPasses (namesKeys hotKeys : List String) : Bool :=
  (hotKeys.all fun k => namesKeys.contains k)
    && (namesKeys.all fun k => hotKeys.contains k)

/-- Set equality of two key collections, stated from the specification's
words for claim C6 (the Profile Store side is the union of both tiers). -/
def specKeySetsEqual (namesKeys storeKeys : List String) : Bool :=
  (namesKeys.all fun k => storeKeys.contains k)
    && (storeKeys.all fun k => namesKeys.contains k)

/-! ## Run controller and the lock file
(`Calculator.DoRefresh`, lines 1511-1529; `Calculator.RunCalc`, lines
1531-1563; `Run`, lines 1934-1947)

The only state the claim concerns is whether `nomenclature.lock` exists.
`doCalcRaises` says whether `DoCalc` raises; `RunCalc` catches every
exception with a bare `except:` (logging it) and returns normally either
way, removing the lock only in its `else:` branch. -/

structure RunState where
  lockPresent : Bool
deriving DecidableEq

/-- `DoRefresh`: `os.remove(lockfile_path)` wrapped in `try/except: pass` —
the lock is gone afterwards no matter what. -/
def DoRefresh (_s : RunState) : RunState :=
  { lockPresent := false }

/-- `RunCalc`: run `DoCalc`; on an exception, log and swallow it; only on
success (`else:`) remove the lock file. -/
def RunCalc (doCalcRaises : Bool) (s : RunState) : RunState :=
  if doCalcRaises then s else { lockPresent := false }

/-- `Run`: `calc.RunCalc({})` followed unconditionally by
`calc.DoRefresh({})`. -/
def Run (doCalcRaises : Bool) (s : RunState) : RunState :=
  DoRefresh (RunCalc doCalcRaises s)

/-! ## `Tree.GetName` / `Tree.HasName` (source lines 374-382 and 413-421)

`self._names` is a `defaultdict(list)`; `GetName` calls
`self._names.setdefault(key, [])`, which *inserts* an empty name for a
missing key (at the end, in dict insertion order) and returns it.
`HasName` is `key in self._names`. -/

/-- `Tree.GetName(key)`: the name list, plus the (possibly mutated)
`_names` dict. -/
def GetName (names : List (String × List ℕ)) (key : String) :
    List ℕ × List (String × List ℕ) :=
  match names.lookup key with
  | some v => (v, names)
  | none => ([], names ++ [(key, [])])

/-- `Tree.HasName(key)`: `key in self._names`. -/
def HasName (names : List (String × List ℕ)) (key : String) : Bool :=
  (names.lookup key).isSome

/-! ## Helper lemmas -/

/-- Counting a decidable predicate over `Finset.range` agrees with `countP`
over `List.range`. -/
theorem card_filter_range (n : ℕ) (p : ℕ → Prop) [DecidablePred p] :
    ((Finset.range n).filter p).card = (List.range n).countP fun i => decide (p i) := by
  induction n with
  | zero => simp
  | succ m ih =>
      rw [Finset.range_succ, List.range_succ, List.countP_append]
      by_cases h : p m
      · rw [Finset.filter_insert, if_pos h, Finset.card_insert_of_not_mem (by simp)]
        simp [h, ih]
      · rw [Finset.filter_insert, if_neg h]
        simp [h, ih]

/-- The spec's `common` count agrees with the code's `nCommon`. -/
theorem specCommon_eq_nCommon (p1 p2 : List ℕ) :
    specCommon p1 p2 = nCommon p1 p2 := by
  rw [specCommon, nCommon, card_filter_range]
  refine List.countP_congr fun i _ => ?_
  simp [Bool.and_eq_true, decide_eq_true_eq]

/-- The spec's `diff` count agrees with the code's `nDiff`. -/
theorem specDiff_eq_nDiff (p1 p2 : List ℕ) :
    specDiff p1 p2 = nDiff p1 p2 := by
  rw [specDiff, nDiff, card_filter_range]
  refine List.countP_congr fun i _ => ?_
  simp only [decide_eq_true_eq, Bool.and_eq_true]
  omega

/-- An in-bounds `get?` returns the `getD` value. -/
theorem get?_of_lt (l : List ℕ) (i : ℕ) (h : i < l.length) :
    l.get? i = some (l.getD i 0) := by
  rw [List.getD_eq_getD_get?, List.get?_eq_get h]
  rfl

/-- `mapOpt` succeeds and computes the pointwise map when every element
does. -/
theorem mapOpt_eq_some_map {α β : Type} (f : α → Option β) (g : α → β)
    (l : List α) (h : ∀ a ∈ l, f a = some (g a)) :
    mapOpt f l = some (l.map g) := by
  induction l with
  | nil => rfl
  | cons x xs ih =>
      simp [mapOpt, h x (List.mem_cons_self x xs),
        ih fun a ha => h a (List.mem_cons_of_mem x ha)]

/-- Counting `true` after mapping a boolean function is `countP`. -/
theorem count_true_map {α : Type} (l : List α) (p : α → Bool) :
    (l.map p).count true = l.countP p := by
  induction l with
  | nil => rfl
  | cons x xs ih => by_cases h : p x <;> simp [List.count_cons, List.countP_cons, h, ih]

/-! ## Claims about the distance function -/

/-- C1: for profiles of equal length, `GetDistance` returns 100 when the
number of jointly called positions (`common`) is 0, and otherwise
`100 · diff / common`, where `diff` counts jointly called positions whose
calls differ. -/
theorem c1_GetDistance_formula (p1 p2 : List ℕ) (h : p1.length = p2.length) :
    (specCommon p1 p2 = 0 → GetDistance p1 p2 = 100) ∧
    (specCommon p1 p2 ≠ 0 →
      GetDistance p1 p2 =
        100 * (specDiff p1 p2 : ℚ) / (specCommon p1 p2 : ℚ)) := by
  constructor
  · intro h0
    simp [GetDistance, show nCommon p1 p2 = 0 from specCommon_eq_nCommon p1 p2 ▸ h0]
  · intro hne
    rw [specCommon_eq_nCommon, specDiff_eq_nDiff]
    simp [GetDistance, show nCommon p1 p2 ≠ 0 from specCommon_eq_nCommon p1 p2 ▸ hne]

/-- Witness for C1 at concrete profiles `[1, 2, 0]` and `[1, 3, 5]`. -/
theorem c1_GetDistance_formula_witness :
    ([1, 2, 0] : List ℕ).length = ([1, 3, 5] : List ℕ).length ∧
    (specCommon [1, 2, 0] [1, 3, 5] = 0 → GetDistance [1, 2, 0] [1, 3, 5] = 100) ∧
    (specCommon [1, 2, 0] [1, 3, 5] ≠ 0 →
      GetDistance [1, 2, 0] [1, 3, 5] =
        100 * (specDiff [1, 2, 0] [1, 3, 5] : ℚ) / (specCommon [1, 2, 0] [1, 3, 5] : ℚ)) :=
  ⟨rfl, c1_GetDistance_formula [1, 2, 0] [1, 3, 5] rfl⟩

/-- C8: `GetDistance` is symmetric on equal-length profiles. -/
theorem c8_GetDistance_symm (p1 p2 : List ℕ) (h : p1.length = p2.length) :
    GetDistance p1 p2 = GetDistance p2 p1 := by
  have hc : nCommon p1 p2 = nCommon p2 p1 := by
    unfold nCommon
    rw [h]
    refine List.countP_congr fun i _ => ?_
    simp only [Bool.and_eq_true, decide_eq_true_eq]
    omega
  have hd : nDiff p1 p2 = nDiff p2 p1 := by
    unfold nDiff
    rw [h]
    refine List.countP_congr fun i _ => ?_
    simp only [Bool.and_eq_true, decide_eq_true_eq]
    omega
  unfold GetDistance
  rw [hc, hd]

/-- Witness for C8 at concrete profiles `[1, 2, 0]` and `[1, 3, 5]`. -/
theorem c8_GetDistance_symm_witness :
    ([1, 2, 0] : List ℕ).length = ([1, 3, 5] : List ℕ).length ∧
    GetDistance [1, 2, 0] [1, 3, 5] = GetDistance [1, 3, 5] [1, 2, 0] :=
  ⟨rfl, c8_GetDistance_symm [1, 2, 0] [1, 3, 5] rfl⟩

/-- C10: under the equal-length precondition, every index access of
`GetDistance` is in bounds and the function totally computes the value of
the unchecked embedding. -/
theorem c10_GetDistance_total (p1 p2 : List ℕ) (h : p1.length = p2.length) :
    GetDistanceChecked p1 p2 = some (GetDistance p1 p2) := by
  unfold GetDistanceChecked
  rw [mapOpt_eq_some_map _
        (fun i => decide (0 < p1.getD i 0) && decide (0 < p2.getD i 0)) _
        (fun a ha => by
          have h1 : a < p1.length := List.mem_range.mp ha
          have h2 : a < p2.length := h ▸ h1
          rw [get?_of_lt _ _ h1, get?_of_lt _ _ h2]
          rfl),
      mapOpt_eq_some_map _
        (fun i => (decide (p1.getD i 0 ≠ 0) && decide (p2.getD i 0 ≠ 0))
          && decide (p1.getD i 0 ≠ p2.getD i 0)) _
        (fun a ha => by
          have h1 : a < p1.length := List.mem_range.mp ha
          have h2 : a < p2.length := h ▸ h1
          rw [get?_of_lt _ _ h1, get?_of_lt _ _ h2]
          rfl)]
  unfold GetDistance nCommon nDiff
  rw [← count_true_map (List.range p1.length)
        (fun i => decide (0 < p1.getD i 0) && decide (0 < p2.getD i 0)),
      ← count_true_map (List.range p1.length)
        (fun i => (decide (p1.getD i 0 ≠ 0) && decide (p2.getD i 0 ≠ 0))
          && decide (p1.getD i 0 ≠ p2.getD i 0))]
  rfl

/-- Witness for C10 at concrete profiles `[1, 2, 0]` and `[1, 3, 5]`. -/
theorem c10_GetDistance_total_witness :
    ([1, 2, 0] : List ℕ).length = ([1, 3, 5] : List ℕ).length ∧
    GetDistanceChecked [1, 2, 0] [1, 3, 5] = some (GetDistance [1, 2, 0] [1, 3, 5]) :=
  ⟨rfl, c10_GetDistance_total [1, 2, 0] [1, 3, 5] rfl⟩

/-! ## Claim about `IsInCluster` -/

/-- C2: `IsInCluster` returns true if the distance to the founder is within
the threshold; otherwise it returns false when that distance exceeds the
threshold by more than the node diameter plus the missing-data slack
`2·(100 − 100·min_present)`; otherwise it returns true exactly when some
member of the node is within the threshold. -/
theorem c2_IsInCluster_characterization
    (dist : String → String → ℚ) (key : String) (node : ClusterNode)
    (threshold corePercent : ℚ) :
    IsInCluster dist key node threshold corePercent = true ↔
      (dist key node.Preferred ≤ threshold ∨
        (dist key node.Preferred - node.Diameter - 2 * (100 - 100 * corePercent)
            ≤ threshold ∧
          ∃ k ∈ node.EntryKeys, dist key k ≤ threshold)) := by
  unfold IsInCluster
  by_cases h1 : dist key node.Preferred ≤ threshold
  · simp [h1]
  · by_cases h2 : threshold <
        dist key node.Preferred - node.Diameter - 2 * (100 - 100 * corePercent)
    · simp [h1, h2, not_le.mpr h2]
    · simp [h1, h2, le_of_not_lt h2, List.any_eq_true]

/-! ## Claim about `Tree.GetName` / `Tree.HasName` -/

/-- Looking a key up in an association list after appending pairs with other
keys first looks at the appended part only when the first part misses. -/
theorem lookup_append_of_none {α β : Type} [BEq α] (l1 l2 : List (α × β))
    (key : α) (h : l1.lookup key = none) :
    (l1 ++ l2).lookup key = l2.lookup key := by
  induction l1 with
  | nil => rfl
  | cons x xs ih =>
      by_cases hx : key == x.1
      · simp [List.lookup, hx] at h
      · simp [List.lookup, hx] at h ⊢
        exact ih h

/-- C9: for a key absent from `_names`, `Tree.GetName` returns the empty
name and, as a side effect of `setdefault`, inserts the key with an empty
name, so `Tree.HasName` subsequently reports the key as named although it
was never placed. -/
theorem c9_GetName_inserts (names : List (String × List ℕ)) (key : String)
    (h : names.lookup key = none) :
    GetName names key = ([], names ++ [(key, [])]) ∧
    HasName (GetName names key).2 key = true := by
  have h2 : (names ++ [(key, [])]).lookup key = some [] := by
    rw [lookup_append_of_none _ _ _ h]
    simp [List.lookup]
  refine ⟨by simp [GetName, h], ?_⟩
  simp [GetName, h, HasName, h2]

/-- Witness for C9: the key `a` is absent from `[("b", [1])]`. -/
theorem c9_GetName_inserts_witness :
    ([("b", [1])] : List (String × List ℕ)).lookup "a" = none ∧
    (GetName [("b", [1])] "a" = ([], [("b", [1]), ("a", [])]) ∧
      HasName (GetName [("b", [1])] "a").2 "a" = true) :=
  ⟨rfl, c9_GetName_inserts [("b", [1])] "a" rfl⟩

/-! ## Claim about the integrity check -/

/-- C6: the code aborts on a store whose key set *does* equal the tree's
names when both tiers are considered — with `names = {"a"}`, an empty hot
tier and the cold index `{"a"}`, the two key sets agree, yet the check the
source evaluates (hot tier only) fails, raising `AssertionError`. -/
theorem c6_integrity_check_ignores_cold_tier :
    specKeySetsEqual ["a"] ([] ++ ["a"]) = true ∧
    integrityCheckPasses ["a"] [] = false := by
  decide

/-! ## Claim about the lock file -/

/-- C7: even when `DoCalc` raises (`doCalcRaises = true`), a full `Run`
leaves no lock file: `RunCalc` swallows the exception and `Run` then calls
`DoRefresh`, which removes the lock unconditionally.  The claim's promise
that the lock is retained on failure is false. -/
theorem c7_lock_removed_despite_failure :
    (Run true { lockPresent := true }).lockPresent = false := rfl


/-! ## Claims about the quality filter -/

/-- `roundHalfEven` at a value whose fractional part is below one half. -/
theorem roundHalfEven_of_lt_half (q : ℚ) (n : ℤ) (h1 : (n : ℚ) ≤ q)
    (h2 : q - n < 1 / 2) : roundHalfEven q = n := by
  have hf : ⌊q⌋ = n := Int.floor_eq_iff.mpr ⟨h1, by linarith⟩
  simp only [roundHalfEven, hf]
  rw [if_pos h2]

/-- `roundHalfEven` at a value whose fractional part is above one half. -/
theorem roundHalfEven_of_half_lt (q : ℚ) (n : ℤ) (h1 : 1 / 2 < q - n)
    (h2 : q < n + 1) : roundHalfEven q = n + 1 := by
  have hf : ⌊q⌋ = n := Int.floor_eq_iff.mpr ⟨by linarith, h2⟩
  simp only [roundHalfEven, hf]
  rw [if_neg (by linarith), if_pos h1]

/-- Updating a present key of an association list through the pointwise map
of `belowQCAppend` appends the tag to its value. -/
theorem lookup_map_append_tag (xs : List (String × List String))
    (key tag : String) (v : List String) (h : xs.lookup key = some v) :
    (xs.map fun e => if e.1 = key then (e.1, e.2 ++ [tag]) else e).lookup key
      = some (v ++ [tag]) := by
  induction xs with
  | nil => simp [List.lookup] at h
  | cons x rest ih =>
      obtain ⟨a, b⟩ := x
      rw [List.map_cons]
      by_cases ha : key = a
      · subst ha
        rw [if_pos rfl]
        simp only [List.lookup, beq_self_eq_true] at h ⊢
        simp only [Option.some.injEq] at h
        rw [h]
      · have hbeq : (key == a) = false := beq_eq_false_iff_ne.mpr ha
        rw [if_neg (show ¬((a, b).1 = key) from fun hh => ha hh.symm)]
        simp only [List.lookup, hbeq] at h ⊢
        exact ih h

/-- After `belowQCAppend`, the key maps to its old list (default `[]`) with
the tag appended. -/
theorem lookup_belowQCAppend (m : List (String × List String)) (key tag : String) :
    (belowQCAppend m key tag).lookup key =
      some ((m.lookup key).getD [] ++ [tag]) := by
  unfold belowQCAppend
  cases e : m.lookup key with
  | none =>
      simp only [e]
      rw [lookup_append_of_none _ _ _ e]
      simp [List.lookup]
  | some v =>
      simp only [e, Option.getD_some]
      exact lookup_map_append_tag m key tag v e

/-- A 39-locus profile with 2 missing calls: the called fraction is
`37 / 39 ≈ 0.9487 < 0.95`, but `round(·, 2)` lifts it to `0.95`. -/
def qcBorderCalls : List ℕ := List.replicate 2 0 ++ List.replicate 37 1

/-- C4 counterexample: the claim says a profile is rejected exactly when
`nonzero_count / L < min_present`; `qcBorderCalls` has
`nonzero_count / L < 0.95`, yet `CheckCore` (which compares the *rounded*
ratio) accepts it. -/
theorem c4_counterexample :
    ((qcBorderCalls.length : ℚ) - (qcBorderCalls.count 0 : ℚ))
        / (qcBorderCalls.length : ℚ) < 95 / 100 ∧
    CheckCore (95 / 100) qcBorderCalls = some qcBorderCalls := by
  have h1 : qcBorderCalls.length = 39 := by decide
  have h2 : qcBorderCalls.count 0 = 2 := by decide
  have hr : roundHalfEven ((((39 : ℕ) : ℚ) - ((2 : ℕ) : ℚ)) / ((39 : ℕ) : ℚ) * 100)
      = 95 := by
    have h95 : (95 : ℤ) = 94 + 1 := by norm_num
    rw [h95]
    exact roundHalfEven_of_half_lt _ 94 (by norm_num) (by norm_num)
  constructor
  · rw [h1, h2]
    norm_num
  · unfold CheckCore
    rw [h1, h2]
    split_ifs with hcond
    · exfalso
      simp only [pyRound2, hr] at hcond
      norm_num at hcond
    · rfl

/-- C4 as amended: the engine rejects a profile exactly when the fraction
of nonzero calls **rounded to two decimal places** (Python `round(x, 2)`)
is below `min_present`; a rejected profile is recorded under `'CORE'` in
`below_qc`, is not added to the allele-call store, and gains no entry in
`names` (the placement continuation is never reached). -/
theorem c4_qc_reject_rounded (minPres : ℚ)
    (place : CalculatorState → String → List ℕ → CalculatorState)
    (s : CalculatorState) (key : String) (calls : List ℕ) :
    (CheckCore minPres calls = none ↔
      pyRound2 (((calls.length : ℚ) - (calls.count 0 : ℚ)) / (calls.length : ℚ))
        < minPres) ∧
    (CheckCore minPres calls = none →
      (processNewProfile minPres place s key calls).names = s.names ∧
      (processNewProfile minPres place s key calls).alleleCalls = s.alleleCalls ∧
      (processNewProfile minPres place s key calls).belowQC.lookup key =
        some ((s.belowQC.lookup key).getD [] ++ ["CORE"])) := by
  constructor
  · unfold CheckCore
    split_ifs with hc <;> simp [hc]
  · intro hnone
    unfold processNewProfile
    rw [hnone]
    exact ⟨rfl, rfl, lookup_belowQCAppend s.belowQC key "CORE"⟩

/-- A small engine state used by the C4 witness. -/
def qcWitState : CalculatorState :=
  { newKeys := [], belowQC := [], names := [("x", [1, 1])],
    alleleCalls := [("x", [1, 1])] }

/-- Witness for C4 (amended) at the rejected profile `[0, 0, 0, 1, 1]`. -/
theorem c4_qc_reject_rounded_witness :
    CheckCore (95 / 100) [0, 0, 0, 1, 1] = none ∧
    ((processNewProfile (95 / 100) (fun st _ _ => st) qcWitState "k7"
        [0, 0, 0, 1, 1]).names = qcWitState.names ∧
      (processNewProfile (95 / 100) (fun st _ _ => st) qcWitState "k7"
        [0, 0, 0, 1, 1]).alleleCalls = qcWitState.alleleCalls ∧
      (processNewProfile (95 / 100) (fun st _ _ => st) qcWitState "k7"
        [0, 0, 0, 1, 1]).belowQC.lookup "k7" =
        some ((qcWitState.belowQC.lookup "k7").getD [] ++ ["CORE"])) := by
  have hr : roundHalfEven ((((5 : ℕ) : ℚ) - ((3 : ℕ) : ℚ)) / ((5 : ℕ) : ℚ) * 100)
      = 40 := roundHalfEven_of_lt_half _ 40 (by norm_num) (by norm_num)
  have hnone : CheckCore (95 / 100) [0, 0, 0, 1, 1] = none := by
    unfold CheckCore
    rw [show ([0, 0, 0, 1, 1] : List ℕ).length = 5 from rfl,
        show List.count 0 ([0, 0, 0, 1, 1] : List ℕ) = 3 from rfl]
    rw [if_pos]
    simp only [pyRound2, hr]
    norm_num
  exact ⟨hnone,
    (c4_qc_reject_rounded (95 / 100) (fun st _ _ => st) qcWitState "k7"
      [0, 0, 0, 1, 1]).2 hnone⟩

/-! ## Claims about merge anchor selection -/

/-- The two sibling terminal nodes of the C3 counterexample: ids 1 and 2,
each holding one key (a member-count tie). -/
def exChildren : List PNode := [PNode.named 1 ["a"], PNode.named 2 ["b"]]

/-- C3 counterexample: with tied member counts and the matched set iterated
as `[2, 1]` (one of the unspecified Python set iteration orders), the node
that survives `MergeNodes` has id 2, while the claim's smallest-id
tie-break demands id 1. -/
theorem c3_counterexample :
    (MergeNodes exChildren [2, 1]).map PNode.getID = some 2 ∧
    specAnchorId exChildren [2, 1] = some 1 ∧
    (MergeNodes exChildren [2, 1]).map PNode.getID ≠ specAnchorId exChildren [2, 1] := by
  refine ⟨rfl, rfl, ?_⟩
  intro hcontra
  rw [show (MergeNodes exChildren [2, 1]).map PNode.getID = some 2 from rfl,
      show specAnchorId exChildren [2, 1] = some 1 from rfl] at hcontra
  simp at hcontra

/-- Python `max(xs, key=f)` via `foldl`: the result is an element of the
list, and its key is maximal. -/
theorem foldl_firstMax_spec {α : Type} (f : α → ℕ) (x : α) (xs : List α) :
    (xs.foldl (fun best y => if f best < f y then y else best) x) ∈ x :: xs ∧
    ∀ y ∈ x :: xs,
      f y ≤ f (xs.foldl (fun best y => if f best < f y then y else best) x) := by
  induction xs generalizing x with
  | nil => simp
  | cons z zs ih =>
      rw [List.foldl_cons]
      obtain ⟨hmem, hbound⟩ := ih (if f x < f z then z else x)
      have hpx : f x ≤ f (if f x < f z then z else x) := by
        by_cases hc : f x < f z
        · rw [if_pos hc]; exact le_of_lt hc
        · rw [if_neg hc]
      have hpz : f z ≤ f (if f x < f z then z else x) := by
        by_cases hc : f x < f z
        · rw [if_pos hc]
        · rw [if_neg hc]; exact le_of_not_lt hc
      constructor
      · rcases List.mem_cons.mp hmem with hr | hr
        · by_cases hc : f x < f z
          · rw [hr, if_pos hc]
            exact List.mem_cons_of_mem _ (List.mem_cons_self _ _)
          · rw [hr, if_neg hc]
            exact List.mem_cons_self _ _
        · exact List.mem_cons_of_mem _ (List.mem_cons_of_mem _ hr)
      · intro y hy
        have hb := hbound _ (List.mem_cons_self (if f x < f z then z else x) zs)
        rcases List.mem_cons.mp hy with hy1 | hy2
        · rw [hy1]
          exact le_trans hpx hb
        · rcases List.mem_cons.mp hy2 with hy3 | hy4
          · rw [hy3]
            exact le_trans hpz hb
          · exact hbound _ (List.mem_cons_of_mem _ hy4)

/-- C3 as amended: when several sibling nodes match, the node surviving
`MergeNodes` is one of the matched nodes and its member count (named keys
at or below it) is maximal among them — but the tie-break is the first
maximal node in the (unspecified) iteration order of the matched set, not
the smallest node id. -/
theorem c3_anchor_has_maximal_size (children : List PNode) (nodes : List ℕ)
    (allNodes : List PNode) (res : PNode)
    (hall : mapOpt (GetChild children) nodes = some allNodes)
    (hres : MergeNodes children nodes = some res) :
    res ∈ allNodes ∧ ∀ n ∈ allNodes, dfsNamedSize n ≤ dfsNamedSize res := by
  unfold MergeNodes at hres
  rw [hall] at hres
  change firstMaxBy dfsNamedSize allNodes = some res at hres
  cases allNodes with
  | nil => simp [firstMaxBy] at hres
  | cons x xs =>
      simp only [firstMaxBy, Option.some.injEq] at hres
      subst hres
      exact foldl_firstMax_spec dfsNamedSize x xs

/-- Witness for C3 (amended) at the counterexample's children, iterated in
ascending order `[1, 2]`. -/
theorem c3_anchor_has_maximal_size_witness :
    mapOpt (GetChild exChildren) [1, 2]
        = some [PNode.named 1 ["a"], PNode.named 2 ["b"]] ∧
    MergeNodes exChildren [1, 2] = some (PNode.named 1 ["a"]) ∧
    (PNode.named 1 ["a"] ∈ [PNode.named 1 ["a"], PNode.named 2 ["b"]] ∧
      dfsNamedSize (PNode.named 2 ["b"]) ≤ dfsNamedSize (PNode.named 1 ["a"])) :=
  ⟨rfl, rfl,
    (c3_anchor_has_maximal_size exChildren [1, 2]
        [PNode.named 1 ["a"], PNode.named 2 ["b"]] (PNode.named 1 ["a"])
        rfl rfl).1,
    (c3_anchor_has_maximal_size exChildren [1, 2]
        [PNode.named 1 ["a"], PNode.named 2 ["b"]] (PNode.named 1 ["a"])
        rfl rfl).2 (PNode.named 2 ["b"]) (by simp)⟩

/-! ## Claim about the Profile Store round-trip -/

/-- Unfolding of one `while` iteration: the check and conditional step. -/
theorem convertLoop_succ (fuel : ℕ) (st : AlleleCallsState) :
    convertLoop (fuel + 1) st =
      if BLOCKSIZE < st.alleleCalls.length then convertLoop fuel (convertStep st)
      else st := rfl

/-- `convertLoop` only ever appends to the index. -/
theorem convertLoop_index_append (fuel : ℕ) :
    ∀ st : AlleleCallsState, ∃ suffix,
      (convertLoop fuel st).index = st.index ++ suffix := by
  induction fuel with
  | zero => exact fun st => ⟨[], by simp [convertLoop]⟩
  | succ n ih =>
      intro st
      by_cases hc : BLOCKSIZE < st.alleleCalls.length
      · obtain ⟨suf, hs⟩ := ih (convertStep st)
        refine ⟨(st.alleleCalls.take BLOCKSIZE).enum.map
          (fun e => (e.2.1, IdxVal.tup st.matrices.length e.1)) ++ suf, ?_⟩
        rw [convertLoop_succ, if_pos hc, hs]
        simp [convertStep]
      · exact ⟨[], by rw [convertLoop_succ, if_neg hc, List.append_nil]⟩

/-- After `_Convert` on `bigStore`, the first index entry is the tuple
`("k0", (0, 0))`. -/
theorem convert_bigStore_index_head :
    ∃ rest, (convert bigStore).index = ("k0", IdxVal.tup 0 0) :: rest := by
  have hlen : bigStore.alleleCalls.length = 1001 := by
    simp [bigStore]
  have hcond : BLOCKSIZE < bigStore.alleleCalls.length := by
    rw [hlen]
    decide
  have hstep : ∃ tail, (convertStep bigStore).index
      = ("k0", IdxVal.tup 0 0) :: tail := ⟨_, rfl⟩
  obtain ⟨tail, ht⟩ := hstep
  obtain ⟨suf, hs⟩ := convertLoop_index_append 1000 (convertStep bigStore)
  refine ⟨tail ++ suf, ?_⟩
  unfold convert
  rw [hlen, show (1001 : ℕ) = 1000 + 1 from rfl, convertLoop_succ, if_pos hcond,
      hs, ht]
  simp

/-- `takeWhile` over a satisfying block stops exactly at the first failing
character. -/
theorem takeWhile_append_cons (p : Char → Bool) (l : List Char) (x : Char)
    (r : List Char) (hall : ∀ c ∈ l, p c = true) (hx : p x = false) :
    (l ++ x :: r).takeWhile p = l := by
  induction l with
  | nil => simp [List.takeWhile_cons, hx]
  | cons c cs ih =>
      rw [List.cons_append, List.takeWhile_cons,
        if_pos (hall c (List.mem_cons_self c cs))]
      rw [ih fun d hd => hall d (List.mem_cons_of_mem c hd)]

/-- `parseKeyString` consumes exactly a rendered quoted key. -/
theorem parseKeyString_render (k : String) (suffix : List Char)
    (hk : ∀ c ∈ k.toList, c ≠ '"') :
    parseKeyString ('"' :: (k.toList ++ '"' :: suffix))
      = some (String.mk k.toList, suffix) := by
  have htw : (k.toList ++ '"' :: suffix).takeWhile (fun d => d ≠ '"') = k.toList :=
    takeWhile_append_cons _ _ _ _ (fun c hc => by simp [hk c hc]) (by simp)
  simp only [parseKeyString, if_pos rfl, htw, List.drop_left]
  rfl

/-- `parseEntries` fails on an entry whose value is a rendered tuple: the
value parser expects `[` but finds `(`. -/
theorem parseEntries_tup_fails (k : String) (m i : ℕ) (tail : List Char)
    (fuel : ℕ) (hk : ∀ c ∈ k.toList, c ≠ '"') :
    parseEntries parsePair (fuel + 1)
      ('"' :: (k.toList ++ '"' :: ':' :: ' ' :: (renderIdxVal (IdxVal.tup m i) ++ tail)))
      = none := by
  simp only [parseEntries]
  rw [parseKeyString_render k (':' :: ' ' :: (renderIdxVal (IdxVal.tup m i) ++ tail)) hk]
  rfl

/-- `json.load` rejects a dict document whose first entry's value is a
Python tuple. -/
theorem parseDict_tup_head (k : String) (m i : ℕ) (rest : List (String × IdxVal))
    (hk : ∀ c ∈ k.toList, c ≠ '"') :
    parseDict parsePair (renderDict renderIdxVal ((k, IdxVal.tup m i) :: rest))
      = none := by
  obtain ⟨tail, htail⟩ : ∃ tail,
      renderDict renderIdxVal ((k, IdxVal.tup m i) :: rest)
        = openBrace :: ('"' ::
            (k.toList ++ '"' :: ':' :: ' ' :: (renderIdxVal (IdxVal.tup m i) ++ tail))) := by
    cases rest with
    | nil =>
        exact ⟨[closeBrace], by simp [renderDict, joinSep, renderEntry]⟩
    | cons y ys =>
        refine ⟨',' :: ' ' ::
          (joinSep [',', ' '] ((y :: ys).map (renderEntry renderIdxVal)) ++ [closeBrace]), ?_⟩
        simp [renderDict, joinSep, renderEntry]
  rw [htail]
  simp only [parseDict, if_pos rfl]
  rw [if_neg (show ¬('"' = closeBrace) from by decide)]
  exact parseEntries_tup_fails k m i tail _ hk

/-- `AlleleCalls.Load` raises whenever the index file is unparseable,
whatever the calls file holds. -/
theorem load_none_of_index_unparseable (files : SavedFiles)
    (h : parseDict parsePair files.indexDoc = none) :
    AlleleCallsLoad files = none := by
  unfold AlleleCallsLoad
  rw [h]
  cases parseDict parseProfile files.callsDoc <;> rfl

/-- C5: saving a Profile Store whose hot tier holds more than 1000 profiles
promotes a shard, stamping tuple-valued index entries; the index file is
then written as `(shard, slot)` — not JSON — and the subsequent load fails
(raises) instead of reproducing the store.  This refutes the claim that
save followed by load is the identity on Profile Store content. -/
theorem c5_save_then_load_fails :
    AlleleCallsLoad (AlleleCallsSave bigStore).2 = none := by
  apply load_none_of_index_unparseable
  show parseDict parsePair (renderDict renderIdxVal (convert bigStore).index) = none
  obtain ⟨rest, hrest⟩ := convert_bigStore_index_head
  rw [hrest]
  exact parseDict_tup_head "k0" 0 0 rest (by decide)
